import Mathlib

/-!
# Verification of the `llm_journal` core

Shallow embedding of the core of the `llm_journal` journaling service:

* the 364-day cyclical calendar (`src/cycle_date.rs`),
* the content store and the hierarchical context aggregator (`src/journal.rs`),
* the personalization state and holiday lookup (`src/personalization.rs`),
* the generation scheduler (`src/prompt_generator.rs`).

Machine integers of the source (`u8`, `u64`, `i64`) are modelled as `Nat`/`Int`;
all quantities that occur stay far below any overflow boundary, and bound checks
of the source are carried over literally.  File-system contents are modelled as
an abstract keyed store; real calendar dates are modelled as proleptic Gregorian
dates with an explicit linear day number (the same semantics the `chrono` crate
implements for `NaiveDate`).
-/

namespace LlmJournal

/-! ## The cyclical calendar (`src/cycle_date.rs`)

`CycleDate` mirrors the Rust struct: four `u8` fields.  The fields are kept as
`Nat`; the validity predicate `CycleDate.Valid` states the bounds enforced by
the validated constructor `CycleDate.new`. -/
structure CycleDate where
  year_cycle : Nat
  month : Nat
  week : Nat
  day : Nat
deriving DecidableEq, Repr

namespace CycleDate

/-- The bounds the validated constructor enforces (`year_cycle ≤ 99`,
`month ≤ 12`, `week ≤ 3`, `day ≤ 6`). -/
def Valid (d : CycleDate) : Prop :=
  d.year_cycle ≤ 99 ∧ d.month ≤ 12 ∧ d.week ≤ 3 ∧ d.day ≤ 6

instance (d : CycleDate) : Decidable d.Valid := by
  unfold Valid
  infer_instance

/-- Classified errors of the calendar codec.  The constructors mirror the
distinct `Err(String)` values of `cycle_date.rs`; `indexOutOfBounds` models a
Rust indexing panic (`chars[i]` past the end), which is not a returned error. -/
inductive DateError where
  | yearRange
  | monthRange
  | weekRange
  | dayRange
  | badLength
  | invalidYear
  | invalidMonth
  | invalidWeek
  | invalidDay
  | indexOutOfBounds
deriving DecidableEq, Repr

/-- `CycleDate::new`: the validated constructor. -/
def new (yc m w d : Nat) : Except DateError CycleDate :=
  if yc > 99 then .error .yearRange
  else if m > 12 then .error .monthRange
  else if w > 3 then .error .weekRange
  else if d > 6 then .error .dayRange
  else .ok ⟨yc, m, w, d⟩

/-! ### Real-date conversion

Real dates are day numbers relative to the source's fixed reference date
(January 1, 2024 is day `0`).  January 1, 2024 is a Monday, so chrono's
`weekday().num_days_from_sunday()` for the reference date is `1`; the source's
cycle start (the first Sunday on or after the reference) is therefore day `6`
(January 7, 2024). -/
/-- `epoch.weekday().num_days_from_sunday()` for January 1, 2024 (a Monday). -/
def refNumDaysFromSunday : Int := 1

/-- `cycle_start` of the source: the reference date plus
`(7 - num_days_from_sunday) % 7` days. -/
def cycleStart : Int := 0 + (7 - refNumDaysFromSunday) % 7

/-- `CycleDate::from_real_date`.  Dates before the cycle start clamp to the
floor `{0,0,0,0}`. -/
def from_real_date (date : Int) : CycleDate :=
  let days_since_start := date - cycleStart
  if days_since_start < 0 then ⟨0, 0, 0, 0⟩
  else
    let total_days := days_since_start.toNat
    let year_cycle := (total_days / 364) % 100
    let days_in_year := total_days % 364
    let month := days_in_year / 28
    let days_in_month := days_in_year % 28
    let week := days_in_month / 7
    let day := days_in_month % 7
    ⟨year_cycle, month, week, day⟩

/-- `CycleDate::to_real_date`: the linear inverse computation. -/
def to_real_date (d : CycleDate) : Int :=
  cycleStart + (d.year_cycle * 364 + d.month * 28 + d.week * 7 + d.day : Nat)

/-! ### Navigation (`previous_day`, `next_day`, `previous_week`) -/
/-- `CycleDate::previous_day`: decrement with carry, saturating at the
absolute floor `{0,0,0,0}`. -/
def previous_day (d : CycleDate) : CycleDate :=
  if d.day > 0 then ⟨d.year_cycle, d.month, d.week, d.day - 1⟩
  else if d.week > 0 then ⟨d.year_cycle, d.month, d.week - 1, 6⟩
  else if d.month > 0 then ⟨d.year_cycle, d.month - 1, 3, 6⟩
  else if d.year_cycle > 0 then ⟨d.year_cycle - 1, 12, 3, 6⟩
  else ⟨0, 0, 0, 0⟩

/-- `CycleDate::next_day`: increment with carry, wrapping at `{99,12,3,6}`. -/
def next_day (d : CycleDate) : CycleDate :=
  if d.day < 6 then ⟨d.year_cycle, d.month, d.week, d.day + 1⟩
  else if d.week < 3 then ⟨d.year_cycle, d.month, d.week + 1, 0⟩
  else if d.month < 12 then ⟨d.year_cycle, d.month + 1, 0, 0⟩
  else if d.year_cycle < 99 then ⟨d.year_cycle + 1, 0, 0, 0⟩
  else ⟨0, 0, 0, 0⟩

/-- The canonical linear day index `year_cycle*364 + month*28 + week*7 + day`. -/
def toLinear (d : CycleDate) : Nat :=
  d.year_cycle * 364 + d.month * 28 + d.week * 7 + d.day

/-- The loop body of `previous_week`: `n` iterations of pushing the current
date and stepping to `previous_day`. -/
def iterPrev : Nat → CycleDate → List CycleDate
  | 0, _ => []
  | n + 1, c => c :: iterPrev n (previous_day c)

/-- `CycleDate::previous_week`: the 7 dates ending at and including `d`,
oldest first. -/
def previous_week (d : CycleDate) : List CycleDate :=
  (iterPrev 7 d).reverse

/-- Role predicate: first day of a week (`day = 0`). -/
def is_first_day_of_week (d : CycleDate) : Bool :=
  d.day == 0

/-- Role predicate: first day of a month (`week = 0` and `day = 0`). -/
def is_first_day_of_month (d : CycleDate) : Bool :=
  d.week == 0 && d.day == 0

/-- Role predicate: first day of a year (`month = 0`, `week = 0`, `day = 0`). -/
def is_first_day_of_year (d : CycleDate) : Bool :=
  d.month == 0 && d.week == 0 && d.day == 0

end CycleDate

open CycleDate

namespace CycleDate

/-! ## The 5-character string codec

Rust `&str` values are lists of unicode scalar values; `s.len()` in Rust is the
UTF-8 *byte* length, modelled by `utf8Len`. -/
/-- The UTF-8 byte length of one scalar value (what each `char` contributes to
Rust's `s.len()`). -/
def charUtf8Size (c : Char) : Nat :=
  if c.toNat ≤ 0x7F then 1
  else if c.toNat ≤ 0x7FF then 2
  else if c.toNat ≤ 0xFFFF then 3
  else 4

/-- Rust's `s.len()`: the UTF-8 byte length of the string. -/
def utf8Len (cs : List Char) : Nat :=
  (cs.map charUtf8Size).sum

/-- The digit character for `n ≤ 9` (`b'0' + n` of the source). -/
def digitChar (n : Nat) : Char :=
  Char.ofNat (48 + n)

/-- The month character of `to_string`: `'0'..'9'` for months 0–9, then
`'A'`, `'B'`, `'C'`; the unreachable fallback is `'?'`. -/
def month_char (m : Nat) : Char :=
  if m ≤ 9 then digitChar m
  else if m = 10 then 'A'
  else if m = 11 then 'B'
  else if m = 12 then 'C'
  else '?'

/-- `CycleDate::to_string`: `format!("{:02}{}{}{}", year_cycle, month_char,
week, day)`.  For a valid date every component is a single character and the
year is zero-padded to two digits (the `≤ 99` branch). -/
def to_string (d : CycleDate) : List Char :=
  (if d.year_cycle ≤ 99 then [digitChar (d.year_cycle / 10), digitChar (d.year_cycle % 10)]
   else Nat.toDigits 10 d.year_cycle) ++
  [month_char d.month, digitChar d.week, digitChar d.day]

/-- The ASCII decimal digit test (`'0' ..= '9'`). -/
def isDigitChar (c : Char) : Bool :=
  48 ≤ c.toNat && c.toNat ≤ 57

/-- Rust `u8::from_str` on the exactly-two-character string
`format!("{}{}", chars[0], chars[1])`: two decimal digits, or a `'+'` sign
followed by one digit (Rust's unsigned parser accepts one leading `'+'`). -/
def parseU8TwoChars (c0 c1 : Char) : Option Nat :=
  if isDigitChar c0 && isDigitChar c1 then
    some (10 * (c0.toNat - 48) + (c1.toNat - 48))
  else if c0 = '+' && isDigitChar c1 then
    some (c1.toNat - 48)
  else none

/-- Rust `char::to_digit(10)`: the ASCII digits only. -/
def toDigit10 (c : Char) : Option Nat :=
  if isDigitChar c then some (c.toNat - 48) else none

/-- The `match` on the month character of `from_string` (note the source also
accepts lowercase `'a' | 'b' | 'c'`). -/
def monthOfChar (c : Char) : Option Nat :=
  if isDigitChar c then some (c.toNat - 48)
  else if c = 'A' || c = 'a' then some 10
  else if c = 'B' || c = 'b' then some 11
  else if c = 'C' || c = 'c' then some 12
  else none

/-- `CycleDate::from_string`.  The length guard compares the UTF-8 byte
length with 5; each `chars[i]` indexing is modelled by `List.get?`, an
out-of-range access being the Rust panic (`DateError.indexOutOfBounds`). -/
def from_string (cs : List Char) : Except DateError CycleDate :=
  if utf8Len cs ≠ 5 then .error .badLength
  else
    match cs.get? 0, cs.get? 1 with
    | some c0, some c1 =>
      match parseU8TwoChars c0 c1 with
      | none => .error .invalidYear
      | some yc =>
        match cs.get? 2 with
        | none => .error .indexOutOfBounds
        | some c2 =>
          match monthOfChar c2 with
          | none => .error .invalidMonth
          | some m =>
            match cs.get? 3 with
            | none => .error .indexOutOfBounds
            | some c3 =>
              match toDigit10 c3 with
              | none => .error .invalidWeek
              | some w =>
                match cs.get? 4 with
                | none => .error .indexOutOfBounds
                | some c4 =>
                  match toDigit10 c4 with
                  | none => .error .invalidDay
                  | some dy => new yc m w dy
    | _, _ => .error .indexOutOfBounds

/-- The character grammar exactly as the spec states it: 2-digit decimal
year, month `'0'..'9'` or `'A' | 'B' | 'C'`, one digit week, one digit day,
exactly 5 characters. -/
def specValidChars (cs : List Char) : Bool :=
  match cs with
  | [c0, c1, c2, c3, c4] =>
    isDigitChar c0 && isDigitChar c1 &&
    (isDigitChar c2 || c2 == 'A' || c2 == 'B' || c2 == 'C') &&
    isDigitChar c3 && isDigitChar c4
  | _ => false

/-- The strings the source actually decodes successfully: exactly five
characters, a Rust-parseable two-character year, a month in either case, and
digit week/day characters whose values pass the constructor's bounds. -/
def acceptedString (cs : List Char) : Bool :=
  match cs with
  | [c0, c1, c2, c3, c4] =>
    (parseU8TwoChars c0 c1).isSome && (monthOfChar c2).isSome &&
    (match toDigit10 c3 with
     | some w => decide (w ≤ 3)
     | none => false) &&
    (match toDigit10 c4 with
     | some dy => decide (dy ≤ 6)
     | none => false)
  | _ => false

end CycleDate

/-! ## The content store and the context aggregator (`src/journal.rs`)

The store abstracts the per-date directory tree: for each cycle date there may
be an entry, a summary, a status file and numbered prompts; `dirs` is the list
of date directories present on disk (what `read_dir` of the base directory
enumerates).  `load_entry`/`load_summary` return the file contents or absence;
I/O failures are outside the model (the aggregator treats them like absence
anyway, via `if let Ok(Some(..))`). -/
structure Store where
  dirs : List CycleDate
  entry : CycleDate → Option String
  summary : CycleDate → Option String
  statusFile : CycleDate → Bool
  prompt : CycleDate → Nat → Bool

/-- The string form of a cycle date, as used in the `"Day {code}: .."`
fragments. -/
def CycleDate.codeString (d : CycleDate) : String :=
  String.mk (CycleDate.to_string d)

/-- `JournalManager::get_context_for_prompt`: hierarchical rollup.  The four
branches follow the role precedence `year ⟹ month ⟹ week ⟹ regular`; each
loop pushes one fragment per found artifact and silently skips missing ones
(`if let Ok(Some(entry))`). -/
def get_context_for_prompt (s : Store) (cycle_date : CycleDate) : List String :=
  if cycle_date.is_first_day_of_year then
    (List.range 13).filterMap (fun month =>
      let yc := if cycle_date.year_cycle > 0 then cycle_date.year_cycle - 1 else 99
      (s.entry ⟨yc, month, 0, 0⟩).map (fun c =>
        "Month " ++ toString month ++ " reflection: " ++ c))
  else if cycle_date.is_first_day_of_month then
    (List.range 4).filterMap (fun week =>
      let past :=
        if cycle_date.month > 0 then
          CycleDate.mk cycle_date.year_cycle (cycle_date.month - 1) week 0
        else
          CycleDate.mk (if cycle_date.year_cycle > 0 then cycle_date.year_cycle - 1 else 99)
            12 week 0
      (s.entry past).map (fun c => "Week " ++ toString week ++ " reflection: " ++ c))
  else if cycle_date.is_first_day_of_week then
    cycle_date.previous_week.filterMap (fun past =>
      (s.entry past).map (fun c => "Day " ++ past.codeString ++ ": " ++ c))
  else
    cycle_date.previous_week.filterMap (fun past =>
      (s.summary past).map (fun c => "Day " ++ past.codeString ++ ": " ++ c))

/-- A store with no artifacts at all (used to instantiate witnesses). -/
def emptyStore : Store where
  dirs := []
  entry := fun _ => none
  summary := fun _ => none
  statusFile := fun _ => false
  prompt := fun _ _ => false

/-! ## Real Gregorian dates (the `chrono::NaiveDate` semantics)

`personalization.rs` manipulates real dates through `chrono`, whose
`NaiveDate` is the proleptic Gregorian calendar.  A date is a `(year, month,
day)` triple; `dayNumber` is a linear day count (so `d2 - d1` in `chrono`,
i.e. `num_days`, is `dayNumber d2 - dayNumber d1`). -/
/-- Gregorian leap-year rule (divisible by 4 and not by 100, or by 400). -/
def isLeapYear (y : Int) : Bool :=
  (y % 4 == 0 && y % 100 != 0) || y % 400 == 0

/-- Number of days of a Gregorian month (`0` for an invalid month index). -/
def daysInMonth (y : Int) (m : Nat) : Nat :=
  match m with
  | 1 => 31
  | 2 => if isLeapYear y then 29 else 28
  | 3 => 31
  | 4 => 30
  | 5 => 31
  | 6 => 30
  | 7 => 31
  | 8 => 31
  | 9 => 30
  | 10 => 31
  | 11 => 30
  | 12 => 31
  | _ => 0

structure RealDate where
  year : Int
  month : Nat
  day : Nat
deriving DecidableEq, Repr

/-- Validity of a `(year, month, day)` triple. -/
def RealDate.Valid (d : RealDate) : Prop :=
  1 ≤ d.month ∧ d.month ≤ 12 ∧ 1 ≤ d.day ∧ d.day ≤ daysInMonth d.year d.month

instance (d : RealDate) : Decidable d.Valid := by
  unfold RealDate.Valid
  infer_instance

/-- `NaiveDate::from_ymd_opt`: `some` exactly on valid month/day components. -/
def from_ymd_opt (y : Int) (m d : Nat) : Option RealDate :=
  if 1 ≤ m ∧ m ≤ 12 ∧ 1 ≤ d ∧ d ≤ daysInMonth y m then some ⟨y, m, d⟩ else none

/-- Days before month `m` in year `y` (cumulative month lengths). -/
def cumDaysBefore (y : Int) (m : Nat) : Nat :=
  let base : Nat :=
    match m with
    | 1 => 0
    | 2 => 31
    | 3 => 59
    | 4 => 90
    | 5 => 120
    | 6 => 151
    | 7 => 181
    | 8 => 212
    | 9 => 243
    | 10 => 273
    | 11 => 304
    | 12 => 334
    | _ => 0
  if 3 ≤ m then (if isLeapYear y then base + 1 else base) else base

/-- Ordinal day within the year (1-based). -/
def dayOfYear (d : RealDate) : Nat :=
  cumDaysBefore d.year d.month + d.day

/-- Signed count of leap years `k` with `0 ≤ k < y`. -/
def leapCount (y : Int) : Int :=
  (y - 1) / 4 - (y - 1) / 100 + (y - 1) / 400 + 1

/-- Linear day number of a Gregorian date (day 0 being January 1 of year 0);
differences of `dayNumber` are exactly `chrono`'s `num_days`. -/
def dayNumber (d : RealDate) : Int :=
  365 * d.year + leapCount d.year + (dayOfYear d : Int) - 1

/-- The leap indicator as an integer (proof helper). -/
def leapInd (y : Int) : Int :=
  if isLeapYear y then 1 else 0

/-! ## Holidays (`src/personalization.rs`) -/
structure Holiday where
  name : String
  date : List Char
  category : String
  description : Option String
  recurring : Bool
deriving DecidableEq, Repr

/-- The digit-accumulation loop of Rust's integer parser. -/
def parseDigitsLoop : List Char → Nat → Option Nat
  | [], acc => some acc
  | c :: rest, acc =>
    if isDigitChar c then parseDigitsLoop rest (acc * 10 + (c.toNat - 48)) else none

/-- Rust `str::parse::<u32>()`: optional leading `'+'`, then at least one
decimal digit, value below `2^32`. -/
def parseU32 (cs : List Char) : Option Nat :=
  let body :=
    match cs with
    | '+' :: rest => rest
    | _ => cs
  match body with
  | [] => none
  | _ =>
    match parseDigitsLoop body 0 with
    | some n => if n < 4294967296 then some n else none
    | none => none

/-- The next-year fallback of `days_until_holiday` for recurring `MM-DD`
holidays: the source returns the difference without a sign check (the proof
below shows it is nonetheless non-negative for a valid `from_date`). -/
def recurringNextYear (current_year : Int) (month day : Nat) (from_date : RealDate) :
    Option Int :=
  match from_ymd_opt (current_year + 1) month day with
  | some next_year_date => some (dayNumber next_year_date - dayNumber from_date)
  | none => none

/-- `chrono`'s `NaiveDate::parse_from_str(s, "%Y-%m-%d")` restricted to the
zero-padded 10-character shape the guard `len == 10 && two dashes` admits:
4-digit year, 2-digit month, 2-digit day (the component split of the
external parser; the validity check happens in `from_ymd_opt` afterwards). -/
def parseYmdDashed (cs : List Char) : Option (Int × Nat × Nat) :=
  match cs.splitOn '-' with
  | [ys, ms, ds] =>
    if ys.length = 4 ∧ ys.all isDigitChar = true ∧ ms.length = 2 ∧
        ms.all isDigitChar = true ∧ ds.length = 2 ∧ ds.all isDigitChar = true then
      match parseDigitsLoop ys 0, parseDigitsLoop ms 0, parseDigitsLoop ds 0 with
      | some y, some m, some d => some ((y : Int), m, d)
      | _, _, _ => none
    else none
  | _ => none

/-- `PersonalizationConfig::days_until_holiday`: days from `from_date` to the
holiday's next occurrence.  `MM-DD` holidays are computed against the current
real year and recomputed for next year when this year's occurrence has
passed; `YYYY-MM-DD` holidays yield their difference only when non-negative;
every other format yields `none`. -/
def days_until_holiday (holiday : Holiday) (from_date : RealDate) : Option Int :=
  let current_year := from_date.year
  if utf8Len holiday.date = 5 ∧ holiday.date.contains '-' = true then
    match holiday.date.splitOn '-' with
    | [p0, p1] =>
      match parseU32 p0, parseU32 p1 with
      | some month, some day =>
        match from_ymd_opt current_year month day with
        | some this_year_date =>
          let days_diff := dayNumber this_year_date - dayNumber from_date
          if 0 ≤ days_diff then some days_diff
          else recurringNextYear current_year month day from_date
        | none => recurringNextYear current_year month day from_date
      | _, _ => none
    | _ => none
  else if utf8Len holiday.date = 10 ∧ holiday.date.count '-' = 2 then
    match parseYmdDashed holiday.date with
    | some (y, m, d) =>
      match from_ymd_opt y m d with
      | some specific_date =>
        let days_diff := dayNumber specific_date - dayNumber from_date
        if 0 ≤ days_diff then some days_diff else none
      | none => none
    | none => none
  else none

/-- The sort key of `get_upcoming_holidays` (`unwrap_or(365)`). -/
def holidayKey (today : RealDate) (h : Holiday) : Int :=
  (days_until_holiday h today).getD 365

/-- The comparator `sort_by_key` induces on holidays. -/
def holidayLe (today : RealDate) (a b : Holiday) : Bool :=
  decide (holidayKey today a ≤ holidayKey today b)

/-- `PersonalizationConfig::get_upcoming_holidays`: keep the holidays whose
`days_until` is at most 30, then sort ascending by that key (`sort_by_key`
is a stable sort, modelled by `mergeSort`). -/
def get_upcoming_holidays (holidays : List Holiday) (today : RealDate) : List Holiday :=
  let upcoming := holidays.filter (fun holiday =>
    match days_until_holiday holiday today with
    | some days_until => decide (days_until ≤ 30)
    | none => false)
  upcoming.mergeSort (holidayLe today)

/-- `PersonalizationConfig` (the personalization state): static profile and
style text, the rolling status, and the holiday list (the prompt-template
part and the directory handle are outside the modelled core). -/
structure PersonalizationState where
  profile : Option String
  style : Option String
  status : Option String
  holidays : List Holiday

/-- `PersonalizationConfig::get_current_status`: `self.status.as_ref()`. -/
def get_current_status (p : PersonalizationState) : Option String :=
  p.status

/-! ## The generation scheduler (`src/prompt_generator.rs`)

The observable effects of a pass are recorded as an event log: one
`backendPrompt`/`backendSummary` event per text-generation call, one
`writePrompt`/`writeSummary`/`writeStatus` event per store write.
`prepare_for_processing` is the idempotent backend connect, not a
generation call, and reads are not writes; neither is recorded.  The
backend itself is abstracted as always producing text (failure handling is
outside the idempotency claims). -/
inductive Event where
  | backendPrompt (d : CycleDate) (n : Nat)
  | writePrompt (d : CycleDate) (n : Nat)
  | backendSummary (d : CycleDate)
  | writeSummary (d : CycleDate)
  | writeStatus (d : CycleDate)
deriving DecidableEq, Repr

inductive GenError where
  | invalidPromptNumber
  | aboveMax
deriving DecidableEq, Repr

structure GenState where
  store : Store
  events : List Event

/-- `JournalManager::load_prompt` as the scheduler sees it: presence of the
numbered prompt artifact; prompt number 0 is the `_ => Err` arm. -/
def loadPrompt (s : Store) (d : CycleDate) (n : Nat) : Except GenError (Option Unit) :=
  if n = 0 then .error .invalidPromptNumber
  else .ok (if s.prompt d n then some () else none)

/-- `PromptGenerator::count_existing_prompts`: probes prompt indices 1..=3
only (`for i in 1..=3 // Max 3 prompts`), counting those that load as
present. -/
def count_existing_prompts (s : Store) (d : CycleDate) : Nat :=
  (List.range' 1 3).foldl
    (fun count i =>
      match loadPrompt s d i with
      | .ok (some _) => count + 1
      | _ => count) 0

/-- `LlmWorker::generate_prompt`: one backend generation per call; prompt
number 0 hits the `_ => Err("Invalid prompt number")` arm before any
backend call.  The generated text is abstracted; the event records the
artifact key. -/
def llmGeneratePrompt (d : CycleDate) (n : Nat) (g : GenState) :
    Except GenError Unit × GenState :=
  if n = 0 then (.error .invalidPromptNumber, g)
  else (.ok (), { g with events := g.events ++ [.backendPrompt d n] })

/-- `JournalManager::save_prompt`: writes the numbered prompt file (numbers
above 3 get their own `prompt{n}.txt` path, so every number ≥ 1 is
writable); number 0 is the `_ => Err` arm. -/
def savePrompt (d : CycleDate) (n : Nat) (g : GenState) :
    Except GenError Unit × GenState :=
  if n = 0 then (.error .invalidPromptNumber, g)
  else
    (.ok (),
      { store :=
          { g.store with
            prompt := fun d2 n2 => if d2 = d ∧ n2 = n then true else g.store.prompt d2 n2 },
        events := g.events ++ [.writePrompt d n] })

/-- A backend-produced summary text (contents abstracted). -/
def generatedText : String := "generated"

/-- Modelled from the spec: the per-date body of `generate_missing_summaries`.
The summary/status helpers it calls (`find_entries_needing_status`,
`save_status`, the `status` file path of `JournalFilePaths` and
`generate_summary_with_status_update`) are repository code not present under
`src/`; per spec §4.4 step 1, each date with an entry but a missing summary
and/or status gets one backend call producing the summary and an optional
status update (`statusOracle` abstracts whether the backend produced one),
and each artifact is persisted only when missing. -/
def processSummaryDate (statusOracle : CycleDate → Bool) (g : GenState) (cd : CycleDate) :
    GenState :=
  match g.store.entry cd with
  | none => g
  | some _ =>
    let needs_summary := (g.store.summary cd).isNone
    let needs_status := !(g.store.statusFile cd)
    if needs_summary || needs_status then
      let g1 : GenState := { g with events := g.events ++ [.backendSummary cd] }
      let g2 : GenState :=
        if needs_summary then
          { g1 with
            store :=
              { g1.store with
                summary := fun c => if c = cd then some generatedText else g1.store.summary c },
            events := g1.events ++ [.writeSummary cd] }
        else g1
      if needs_status && statusOracle cd then
        { g2 with
          store :=
            { g2.store with
              statusFile := fun c => if c = cd then true else g2.store.statusFile c },
          events := g2.events ++ [.writeStatus cd] }
      else g2
    else g

/-- Modelled from the spec: `generate_missing_summaries` — find the dates
with an entry but a missing summary and/or status and process each once
(the `HashSet` union is modelled in directory order). -/
def generate_missing_summaries (statusOracle : CycleDate → Bool) (g : GenState) : GenState :=
  let entries_to_process := g.store.dirs.filter (fun cd =>
    (g.store.entry cd).isSome && ((g.store.summary cd).isNone || !(g.store.statusFile cd)))
  entries_to_process.foldl (processSummaryDate statusOracle) g

/-- The per-number loop of `generate_prompts_unified`: only the first prompt
of a batch (and only when `skip_checks` is off) runs the summary/status
catch-up (`should_skip_checks = skip_checks || prompt_number > 1`); then one
backend call and one store write per prompt number. -/
def unifiedRun (statusOracle : CycleDate → Bool) (d : CycleDate) (skipChecks : Bool) :
    List Nat → GenState → Except GenError Unit × GenState
  | [], g => (.ok (), g)
  | n :: rest, g =>
    let g0 := if skipChecks || decide (n > 1) then g
              else generate_missing_summaries statusOracle g
    match llmGeneratePrompt d n g0 with
    | (.error e, g1) => (.error e, g1)
    | (.ok _, g1) =>
      match savePrompt d n g1 with
      | (.error e, g2) => (.error e, g2)
      | (.ok _, g2) => unifiedRun statusOracle d skipChecks rest g2

/-- `PromptGenerator::generate_prompts_unified`: count the existing prompts
among indices 1..3; if the count reaches `max_prompts` succeed with nothing
done, otherwise generate prompt numbers `existing+1 ..= max_prompts`.  The
scheduled daily pass calls this with `skip_checks = false` and no override. -/
def generate_prompts_unified (statusOracle : CycleDate → Bool) (defaultMax : Nat)
    (d : CycleDate) (skipChecks : Bool) (maxOverride : Option Nat) (g : GenState) :
    Except GenError Unit × GenState :=
  let maxPrompts := maxOverride.getD defaultMax
  let existing := count_existing_prompts g.store d
  if existing ≥ maxPrompts then (.ok (), g)
  else unifiedRun statusOracle d skipChecks
    (List.range' (existing + 1) (maxPrompts - existing)) g

/-- `PromptGenerator::generate_prompt_on_demand`: number guard, per-index
existence check (`if let Ok(Some(_))` succeeds with nothing done), then one
backend call and one write. -/
def generate_prompt_on_demand (maxPrompts : Nat) (d : CycleDate) (n : Nat) (g : GenState) :
    Except GenError Unit × GenState :=
  if n > maxPrompts then (.error .aboveMax, g)
  else
    match loadPrompt g.store d n with
    | .ok (some _) => (.ok (), g)
    | _ =>
      match llmGeneratePrompt d n g with
      | (.error e, g1) => (.error e, g1)
      | (.ok _, g1) => savePrompt d n g1

/-- A store that has exactly one prompt artifact: index 4 of `{1,5,2,3}`. -/
def storeIndex4 : Store :=
  { dirs := []
    entry := fun _ => none
    summary := fun _ => none
    statusFile := fun _ => false
    prompt := fun d n => decide (d = ⟨1, 5, 2, 3⟩) && decide (n = 4) }

/-! ## Claim C1: idempotency of generation -/
/-- A store whose only prompt artifact is index 3 of `{1,5,2,3}` (a
non-contiguous existing set: indices 1 and 2 are absent). -/
def storePrompt3 : Store :=
  { dirs := []
    entry := fun _ => none
    summary := fun _ => none
    statusFile := fun _ => false
    prompt := fun d n => decide (d = ⟨1, 5, 2, 3⟩) && decide (n = 3) }

/-! ## Theorems -/

namespace CycleDate

theorem new_ok_of_valid (yc m w d : Nat) (h : (CycleDate.mk yc m w d).Valid) :
    new yc m w d = .ok ⟨yc, m, w, d⟩ := by
  obtain ⟨h1, h2, h3, h4⟩ := h
  dsimp only at h1 h2 h3 h4
  unfold new
  rw [if_neg (by omega), if_neg (by omega), if_neg (by omega), if_neg (by omega)]

theorem valid_previous_day {d : CycleDate} (h : d.Valid) : (previous_day d).Valid := by
  obtain ⟨yc, m, w, dy⟩ := d
  obtain ⟨h1, h2, h3, h4⟩ := h
  simp only [previous_day, Valid] at *
  split_ifs <;> simp_all <;> omega

theorem toLinear_previous_day {d : CycleDate} (h : d.Valid) :
    toLinear (previous_day d) = toLinear d - 1 := by
  obtain ⟨yc, m, w, dy⟩ := d
  obtain ⟨h1, h2, h3, h4⟩ := h
  simp only [previous_day, toLinear] at *
  split_ifs <;> simp_all <;> omega

end CycleDate

/-! ## Claim C2: real-date round trip inside one 100-year window -/
/-- C2. For every real date `d` in the window
`[cycle epoch, cycle epoch + 100*364 days)` — the cycle epoch being the first
Sunday on or after the fixed reference date — converting to a cycle date and
back is the identity: `to_real_date (from_real_date d) = d`. -/
theorem C2_real_date_round_trip (r : Int) (hlo : cycleStart ≤ r)
    (hhi : r < cycleStart + 100 * 364) :
    to_real_date (from_real_date r) = r := by
  have hstart : cycleStart = 6 := by decide
  rw [hstart] at hlo hhi
  have hneg : ¬(r - cycleStart < 0) := by rw [hstart]; omega
  unfold from_real_date
  rw [if_neg hneg]
  unfold to_real_date
  have htn : ((r - cycleStart).toNat : Int) = r - cycleStart := by
    rw [hstart]; omega
  set n := (r - cycleStart).toNat with hn
  have hn36400 : n < 36400 := by
    rw [hstart] at htn; omega
  have hdiv : n / 364 < 100 := by omega
  have hmod100 : n / 364 % 100 = n / 364 := Nat.mod_eq_of_lt hdiv
  dsimp only
  rw [hmod100]
  have e1 : 364 * (n / 364) + n % 364 = n := Nat.div_add_mod n 364
  have e2 : 28 * (n % 364 / 28) + n % 364 % 28 = n % 364 := Nat.div_add_mod (n % 364) 28
  have e3 : 7 * (n % 364 % 28 / 7) + n % 364 % 28 % 7 = n % 364 % 28 :=
    Nat.div_add_mod (n % 364 % 28) 7
  have : n / 364 * 364 + n % 364 / 28 * 28 + n % 364 % 28 / 7 * 7 + n % 364 % 28 % 7 = n := by
    omega
  rw [this]
  omega

/-- Witness for C2 at the cycle epoch itself (day 6 = January 7, 2024). -/
theorem C2_real_date_round_trip_witness :
    to_real_date (from_real_date 6) = 6 :=
  C2_real_date_round_trip 6 (by decide) (by decide)

/-! ## Claim C4: `next_day` inverts `previous_day` away from the floor -/
/-- C4. For every valid `CycleDate` other than the absolute floor `{0,0,0,0}`,
`next_day (previous_day d) = d`; at the floor, `previous_day` saturates and
returns `{0,0,0,0}` itself. -/
theorem C4_next_of_previous (d : CycleDate) (hv : d.Valid) :
    (d ≠ ⟨0, 0, 0, 0⟩ → next_day (previous_day d) = d) ∧
    previous_day ⟨0, 0, 0, 0⟩ = ⟨0, 0, 0, 0⟩ := by
  constructor
  · intro hne
    obtain ⟨yc, m, w, dy⟩ := d
    obtain ⟨h1, h2, h3, h4⟩ := hv
    dsimp only at h1 h2 h3 h4
    have hne2 : ¬(yc = 0 ∧ m = 0 ∧ w = 0 ∧ dy = 0) := by
      intro hh
      exact hne (by simp [hh.1, hh.2.1, hh.2.2.1, hh.2.2.2])
    simp only [previous_day, next_day]
    split_ifs <;> simp_all <;> omega
  · rfl

/-- Witness for C4 at `{1,5,0,0}` (a month-carry case). -/
theorem C4_next_of_previous_witness :
    next_day (previous_day ⟨1, 5, 0, 0⟩) = ⟨1, 5, 0, 0⟩ :=
  (C4_next_of_previous ⟨1, 5, 0, 0⟩ (by decide)).1 (by decide)

namespace CycleDate

theorem charUtf8Size_pos (c : Char) : 1 ≤ charUtf8Size c := by
  unfold charUtf8Size
  split_ifs <;> omega

theorem charUtf8Size_le_four (c : Char) : charUtf8Size c ≤ 4 := by
  unfold charUtf8Size
  split_ifs <;> omega

theorem charUtf8Size_of_isDigit {c : Char} (h : isDigitChar c = true) :
    charUtf8Size c = 1 := by
  simp only [isDigitChar, Bool.and_eq_true, decide_eq_true_eq] at h
  unfold charUtf8Size
  rw [if_pos (by omega)]

theorem charUtf8Size_of_parseU8 {c0 c1 : Char} {y : Nat}
    (h : parseU8TwoChars c0 c1 = some y) :
    charUtf8Size c0 = 1 ∧ charUtf8Size c1 = 1 := by
  unfold parseU8TwoChars at h
  split_ifs at h with h1 h2
  · simp only [Bool.and_eq_true] at h1
    exact ⟨charUtf8Size_of_isDigit h1.1, charUtf8Size_of_isDigit h1.2⟩
  · simp only [Bool.and_eq_true, decide_eq_true_eq] at h2
    refine ⟨?_, charUtf8Size_of_isDigit h2.2⟩
    rw [h2.1]
    rfl

theorem charUtf8Size_of_toDigit10 {c : Char} {n : Nat} (h : toDigit10 c = some n) :
    charUtf8Size c = 1 := by
  unfold toDigit10 at h
  split_ifs at h with h1
  exact charUtf8Size_of_isDigit h1

theorem charUtf8Size_of_monthOfChar {c : Char} {m : Nat} (h : monthOfChar c = some m) :
    charUtf8Size c = 1 := by
  unfold monthOfChar at h
  split_ifs at h with h1 h2 h3 h4
  · exact charUtf8Size_of_isDigit h1
  · simp only [Bool.or_eq_true, decide_eq_true_eq] at h2
    rcases h2 with h | h <;> rw [h] <;> rfl
  · simp only [Bool.or_eq_true, decide_eq_true_eq] at h3
    rcases h3 with h | h <;> rw [h] <;> rfl
  · simp only [Bool.or_eq_true, decide_eq_true_eq] at h4
    rcases h4 with h | h <;> rw [h] <;> rfl

theorem monthOfChar_le {c : Char} {m : Nat} (h : monthOfChar c = some m) : m ≤ 12 := by
  unfold monthOfChar at h
  split_ifs at h with h1 h2 h3 h4 <;> injection h with h <;> subst h
  · simp only [isDigitChar, Bool.and_eq_true, decide_eq_true_eq] at h1
    omega
  · omega
  · omega
  · omega

theorem parseU8TwoChars_le {c0 c1 : Char} {y : Nat}
    (h : parseU8TwoChars c0 c1 = some y) : y ≤ 99 := by
  unfold parseU8TwoChars at h
  split_ifs at h with h1 h2 <;> injection h with h <;> subst h
  · simp only [isDigitChar, Bool.and_eq_true, decide_eq_true_eq] at h1
    omega
  · simp only [Bool.and_eq_true, decide_eq_true_eq, isDigitChar] at h2
    omega

theorem parseU8_digits : ∀ a, a < 10 → ∀ b, b < 10 →
    parseU8TwoChars (digitChar a) (digitChar b) = some (10 * a + b) := by
  decide

theorem monthOfChar_month_char : ∀ m, m < 13 → monthOfChar (month_char m) = some m := by
  decide

theorem toDigit10_digitChar : ∀ n, n < 10 → toDigit10 (digitChar n) = some n := by
  decide

theorem charUtf8Size_digitChar : ∀ n, n < 10 → charUtf8Size (digitChar n) = 1 := by
  decide

theorem charUtf8Size_month_char : ∀ m, m < 13 → charUtf8Size (month_char m) = 1 := by
  decide

end CycleDate

/-! ## Claim C3: string encode/decode round trip -/
/-- C3. For every valid `CycleDate`, decoding the 5-character encoding yields
the date again; in particular `CycleDate::new(3,11,2,5)` encodes to `"03B25"`
and decoding `"03B25"` yields `{3,11,2,5}`. -/
theorem C3_string_round_trip (d : CycleDate) (hv : d.Valid) :
    from_string (to_string d) = .ok d ∧
    new 3 11 2 5 = .ok ⟨3, 11, 2, 5⟩ ∧
    to_string ⟨3, 11, 2, 5⟩ = ['0', '3', 'B', '2', '5'] ∧
    from_string ['0', '3', 'B', '2', '5'] = .ok ⟨3, 11, 2, 5⟩ := by
  refine ⟨?_, by rfl, by decide, by rfl⟩
  obtain ⟨yc, m, w, dy⟩ := d
  obtain ⟨h1, h2, h3, h4⟩ := hv
  dsimp only at h1 h2 h3 h4
  have hd1 : yc / 10 < 10 := by omega
  have hd2 : yc % 10 < 10 := by omega
  have hs : to_string ⟨yc, m, w, dy⟩ =
      [digitChar (yc / 10), digitChar (yc % 10), month_char m, digitChar w, digitChar dy] := by
    unfold to_string
    dsimp only
    rw [if_pos h1]
    rfl
  rw [hs]
  have hlen : utf8Len [digitChar (yc / 10), digitChar (yc % 10), month_char m,
      digitChar w, digitChar dy] = 5 := by
    unfold utf8Len
    simp only [List.map_cons, List.map_nil, List.sum_cons, List.sum_nil]
    rw [charUtf8Size_digitChar _ hd1, charUtf8Size_digitChar _ hd2,
        charUtf8Size_month_char m (by omega), charUtf8Size_digitChar w (by omega),
        charUtf8Size_digitChar dy (by omega)]
    rfl
  unfold from_string
  rw [if_neg (by omega)]
  simp only [List.get?]
  rw [parseU8_digits _ hd1 _ hd2, monthOfChar_month_char m (by omega),
    toDigit10_digitChar w (by omega), toDigit10_digitChar dy (by omega)]
  have hyc : 10 * (yc / 10) + yc % 10 = yc := by omega
  rw [hyc]
  exact new_ok_of_valid yc m w dy ⟨h1, h2, h3, h4⟩

/-- Witness for C3 at `{3,11,2,5}`. -/
theorem C3_string_round_trip_witness :
    from_string (to_string ⟨3, 11, 2, 5⟩) = .ok ⟨3, 11, 2, 5⟩ :=
  (C3_string_round_trip ⟨3, 11, 2, 5⟩ (by decide)).1

namespace CycleDate

/-! ## Claim C5: totality of `from_string`

The spec's grammar allows only `'0'..'9'` in the year, week and day positions
and `'0'..'9' | 'A' | 'B' | 'C'` in the month position (`specValidChars`
below).  The source is more liberal: it also accepts lowercase month letters
and a leading `'+'` in the year, so "classified error whenever the string
contains an invalid character" fails; the exact set the source accepts is
`acceptedString`. -/
theorem utf8Len_nil : utf8Len [] = 0 := rfl

theorem utf8Len_cons (c : Char) (cs : List Char) :
    utf8Len (c :: cs) = charUtf8Size c + utf8Len cs := by
  simp [utf8Len]

theorem new_not_panic (yc m w dy : Nat) :
    new yc m w dy ≠ .error .indexOutOfBounds := by
  unfold new
  split_ifs <;> simp

theorem new_ok_valid_iff (yc m w dy : Nat) (hy : yc ≤ 99) (hm : m ≤ 12) :
    (∃ d, new yc m w dy = .ok d ∧ d.Valid) ↔ (w ≤ 3 ∧ dy ≤ 6) := by
  unfold new
  rw [if_neg (by omega), if_neg (by omega)]
  split_ifs with hw hd
  · simp only [Except.error.injEq, false_and, exists_false, false_iff]
    omega
  · simp only [Except.error.injEq, false_and, exists_false, false_iff]
    omega
  · constructor
    · intro _
      exact ⟨by omega, by omega⟩
    · intro h
      exact ⟨⟨yc, m, w, dy⟩, rfl, hy, hm, h.1, h.2⟩

end CycleDate

/-- Counterexample to C5 as stated: `"03b25"` contains the character `'b'`,
which is outside the spec's month alphabet (`'0'..'9'`, `'A' | 'B' | 'C'`),
yet `from_string` returns a valid date rather than a classified error (the
source also matches lowercase month letters). -/
theorem C5_counterexample_lowercase_month :
    specValidChars ['0', '3', 'b', '2', '5'] = false ∧
    from_string ['0', '3', 'b', '2', '5'] = .ok ⟨3, 11, 2, 5⟩ :=
  ⟨by decide, by rfl⟩

/-- C5 (amended).  `from_string` is total and never reaches an out-of-bounds
index (never panics), for arbitrary scalar-value sequences including
multi-byte ones; it returns a valid date exactly on the strings of
`acceptedString` (five characters, Rust-parseable year, month letter in
either case, in-range digit week and day), and a classified error on every
other input. -/
theorem C5_from_string_total (cs : List Char) :
    from_string cs ≠ .error .indexOutOfBounds ∧
    ((∃ d, from_string cs = .ok d ∧ d.Valid) ↔ acceptedString cs = true) := by
  have habs : ∀ L : List Char,
      (∃ e, from_string L = .error e ∧ e ≠ DateError.indexOutOfBounds) →
      acceptedString L = false →
      from_string L ≠ .error .indexOutOfBounds ∧
      ((∃ d, from_string L = .ok d ∧ d.Valid) ↔ acceptedString L = true) := by
    rintro L ⟨e, he, hne⟩ hacc
    rw [he, hacc]
    constructor
    · simp [Except.error.injEq]
      intro h
      exact hne h
    · simp
  match cs with
  | [] =>
    refine habs [] ⟨.badLength, ?_, by simp⟩ rfl
    rfl
  | [c0] =>
    refine habs [c0] ⟨.badLength, ?_, by simp⟩ rfl
    unfold from_string
    rw [if_pos]
    have := charUtf8Size_le_four c0
    rw [utf8Len_cons c0 [], utf8Len_nil]
    omega
  | [c0, c1] =>
    by_cases hL : utf8Len [c0, c1] = 5
    · refine habs _ ⟨.invalidYear, ?_, by simp⟩ rfl
      unfold from_string
      rw [if_neg (by omega)]
      simp only [List.get?]
      cases hp : parseU8TwoChars c0 c1 with
      | none => rfl
      | some y =>
        exfalso
        obtain ⟨e0, e1⟩ := charUtf8Size_of_parseU8 hp
        rw [utf8Len_cons, utf8Len_cons, utf8Len_nil, e0, e1] at hL
        omega
    · refine habs _ ⟨.badLength, ?_, by simp⟩ rfl
      unfold from_string
      rw [if_pos hL]
  | [c0, c1, c2] =>
    by_cases hL : utf8Len [c0, c1, c2] = 5
    · by_cases hp : (parseU8TwoChars c0 c1).isSome
      · obtain ⟨y, hy⟩ := Option.isSome_iff_exists.mp hp
        obtain ⟨e0, e1⟩ := charUtf8Size_of_parseU8 hy
        refine habs _ ⟨.invalidMonth, ?_, by simp⟩ rfl
        unfold from_string
        rw [if_neg (by omega)]
        simp only [List.get?]
        rw [hy]
        cases hm : monthOfChar c2 with
        | none => rfl
        | some m =>
          exfalso
          have e2 := charUtf8Size_of_monthOfChar hm
          rw [utf8Len_cons, utf8Len_cons, utf8Len_cons, utf8Len_nil, e0, e1, e2] at hL
          omega
      · refine habs _ ⟨.invalidYear, ?_, by simp⟩ rfl
        unfold from_string
        rw [if_neg (by omega)]
        simp only [List.get?]
        rw [Option.not_isSome_iff_eq_none.mp hp]
    · refine habs _ ⟨.badLength, ?_, by simp⟩ rfl
      unfold from_string
      rw [if_pos hL]
  | [c0, c1, c2, c3] =>
    by_cases hL : utf8Len [c0, c1, c2, c3] = 5
    · by_cases hp : (parseU8TwoChars c0 c1).isSome
      · obtain ⟨y, hy⟩ := Option.isSome_iff_exists.mp hp
        obtain ⟨e0, e1⟩ := charUtf8Size_of_parseU8 hy
        by_cases hmo : (monthOfChar c2).isSome
        · obtain ⟨m, hm⟩ := Option.isSome_iff_exists.mp hmo
          have e2 := charUtf8Size_of_monthOfChar hm
          refine habs _ ⟨.invalidWeek, ?_, by simp⟩ rfl
          unfold from_string
          rw [if_neg (by omega)]
          simp only [List.get?]
          rw [hy, hm]
          cases hw : toDigit10 c3 with
          | none => rfl
          | some w =>
            exfalso
            have e3 := charUtf8Size_of_toDigit10 hw
            rw [utf8Len_cons, utf8Len_cons, utf8Len_cons, utf8Len_cons, utf8Len_nil,
              e0, e1, e2, e3] at hL
            omega
        · refine habs _ ⟨.invalidMonth, ?_, by simp⟩ rfl
          unfold from_string
          rw [if_neg (by omega)]
          simp only [List.get?]
          rw [hy, Option.not_isSome_iff_eq_none.mp hmo]
      · refine habs _ ⟨.invalidYear, ?_, by simp⟩ rfl
        unfold from_string
        rw [if_neg (by omega)]
        simp only [List.get?]
        rw [Option.not_isSome_iff_eq_none.mp hp]
    · refine habs _ ⟨.badLength, ?_, by simp⟩ rfl
      unfold from_string
      rw [if_pos hL]
  | [c0, c1, c2, c3, c4] =>
    by_cases hL : utf8Len [c0, c1, c2, c3, c4] = 5
    · unfold from_string
      rw [if_neg (by omega)]
      simp only [List.get?]
      cases hp : parseU8TwoChars c0 c1 with
      | none =>
        refine ⟨by simp, ?_⟩
        have haccf : acceptedString [c0, c1, c2, c3, c4] = false := by
          simp [acceptedString, hp]
        rw [haccf]
        simp
      | some y =>
        cases hm : monthOfChar c2 with
        | none =>
          refine ⟨by simp, ?_⟩
          have haccf : acceptedString [c0, c1, c2, c3, c4] = false := by
            simp [acceptedString, hm]
          rw [haccf]
          simp
        | some m =>
          cases hw : toDigit10 c3 with
          | none =>
            refine ⟨by simp, ?_⟩
            have haccf : acceptedString [c0, c1, c2, c3, c4] = false := by
              simp [acceptedString, hw]
            rw [haccf]
            simp
          | some w =>
            cases hd : toDigit10 c4 with
            | none =>
              refine ⟨by simp, ?_⟩
              have haccf : acceptedString [c0, c1, c2, c3, c4] = false := by
                simp [acceptedString, hd]
              rw [haccf]
              simp
            | some dy =>
              refine ⟨new_not_panic y m w dy, ?_⟩
              rw [new_ok_valid_iff y m w dy (parseU8TwoChars_le hp) (monthOfChar_le hm)]
              simp only [acceptedString, hp, hm, hw, hd, Option.isSome_some, Bool.true_and,
                Bool.and_eq_true, decide_eq_true_eq]
    · refine habs _ ⟨.badLength, ?_, ?_⟩ ?_
      · unfold from_string
        rw [if_pos hL]
      · simp
      · by_contra hacc
        have hacc2 : acceptedString [c0, c1, c2, c3, c4] = true := by
          cases h : acceptedString [c0, c1, c2, c3, c4]
          · exact absurd h hacc
          · rfl
        simp only [acceptedString, Bool.and_eq_true] at hacc2
        obtain ⟨⟨⟨hp, hmo⟩, hw⟩, hd⟩ := hacc2
        obtain ⟨y, hy⟩ := Option.isSome_iff_exists.mp hp
        obtain ⟨m, hm⟩ := Option.isSome_iff_exists.mp hmo
        obtain ⟨e0, e1⟩ := charUtf8Size_of_parseU8 hy
        have e2 := charUtf8Size_of_monthOfChar hm
        have e3 : charUtf8Size c3 = 1 := by
          cases hw3 : toDigit10 c3 with
          | none => rw [hw3] at hw; exact absurd hw (by simp)
          | some w => exact charUtf8Size_of_toDigit10 hw3
        have e4 : charUtf8Size c4 = 1 := by
          cases hd4 : toDigit10 c4 with
          | none => rw [hd4] at hd; exact absurd hd (by simp)
          | some dy => exact charUtf8Size_of_toDigit10 hd4
        apply hL
        rw [utf8Len_cons, utf8Len_cons, utf8Len_cons, utf8Len_cons, utf8Len_cons,
          utf8Len_nil, e0, e1, e2, e3, e4]
  | c0 :: c1 :: c2 :: c3 :: c4 :: c5 :: rest =>
    refine habs _ ⟨.badLength, ?_, by simp⟩ rfl
    unfold from_string
    rw [if_pos]
    have p0 := charUtf8Size_pos c0
    have p1 := charUtf8Size_pos c1
    have p2 := charUtf8Size_pos c2
    have p3 := charUtf8Size_pos c3
    have p4 := charUtf8Size_pos c4
    have p5 := charUtf8Size_pos c5
    rw [utf8Len_cons, utf8Len_cons, utf8Len_cons, utf8Len_cons, utf8Len_cons, utf8Len_cons]
    omega

namespace CycleDate

theorem iterPrev_map_toLinear {d : CycleDate} (hv : d.Valid) (n : Nat) :
    (iterPrev n d).map toLinear = (List.range n).map (fun i => toLinear d - i) := by
  induction n generalizing d with
  | zero => rfl
  | succ k ih =>
    rw [iterPrev, List.map_cons, List.range_succ_eq_map, List.map_cons,
      ih (valid_previous_day hv)]
    refine congrArg₂ _ (by omega) ?_
    rw [List.map_map]
    refine List.map_congr_left ?_
    intro i _
    simp only [Function.comp_apply, toLinear_previous_day hv]
    omega

theorem previous_week_map_toLinear {d : CycleDate} (hv : d.Valid) (h6 : 6 ≤ toLinear d) :
    d.previous_week.map toLinear =
      [toLinear d - 6, toLinear d - 5, toLinear d - 4, toLinear d - 3,
       toLinear d - 2, toLinear d - 1, toLinear d] := by
  have h := iterPrev_map_toLinear hv 7
  unfold previous_week
  rw [List.map_reverse, h]
  have hr : List.range 7 = [0, 1, 2, 3, 4, 5, 6] := by decide
  rw [hr]
  simp only [List.map_cons, List.map_nil, List.reverse_cons, List.nil_append,
    List.cons_append]
  have e0 : toLinear d - 0 = toLinear d := by omega
  rw [e0]
  simp

theorem previous_week_head (d : CycleDate) : d.previous_week.getLast? = some d := by
  unfold previous_week iterPrev
  rw [List.getLast?_reverse]
  rfl

theorem previous_week_length (d : CycleDate) : d.previous_week.length = 7 := by
  unfold previous_week
  rw [List.length_reverse]
  rfl

end CycleDate

/-! ## Claim C6: weekly-reflection context -/
/-- C6. For every store and every target date that is a first day of a week
but not of a month, the aggregator returns the fragments built from the raw
entries of the 7 dates ending at and including the target (`previous_week`),
missing entries skipped; the window is chronologically ordered oldest first,
ends at the target, and the output has length at most 7. -/
theorem C6_weekly_context (s : Store) (d : CycleDate) (hv : d.Valid)
    (hday : d.day = 0) (hweek : d.week ≠ 0) :
    get_context_for_prompt s d =
      d.previous_week.filterMap (fun past =>
        (s.entry past).map (fun c => "Day " ++ past.codeString ++ ": " ++ c)) ∧
    d.previous_week.length = 7 ∧
    d.previous_week.getLast? = some d ∧
    d.previous_week.map toLinear =
      [toLinear d - 6, toLinear d - 5, toLinear d - 4, toLinear d - 3,
       toLinear d - 2, toLinear d - 1, toLinear d] ∧
    List.Chain' (fun a b => toLinear a < toLinear b) d.previous_week ∧
    (get_context_for_prompt s d).length ≤ 7 := by
  have h6 : 6 ≤ toLinear d := by
    unfold toLinear
    omega
  have hmain : get_context_for_prompt s d =
      d.previous_week.filterMap (fun past =>
        (s.entry past).map (fun c => "Day " ++ past.codeString ++ ": " ++ c)) := by
    unfold get_context_for_prompt
    rw [if_neg (by simp [is_first_day_of_year, hweek]),
      if_neg (by simp [is_first_day_of_month, hweek]),
      if_pos (by simp [is_first_day_of_week, hday])]
  have hmap := previous_week_map_toLinear hv h6
  refine ⟨hmain, previous_week_length d, previous_week_head d, hmap, ?_, ?_⟩
  · have hchain : List.Chain' (· < ·) (d.previous_week.map toLinear) := by
      rw [hmap]
      simp only [List.chain'_cons, List.chain'_singleton, and_true]
      omega
    rw [List.chain'_map] at hchain
    exact hchain
  · rw [hmain]
    calc (d.previous_week.filterMap _).length
        ≤ d.previous_week.length := List.length_filterMap_le _ _
      _ = 7 := previous_week_length d

/-- Witness for C6 at `{0,0,1,0}` over the empty store. -/
theorem C6_weekly_context_witness :
    (CycleDate.mk 0 0 1 0).previous_week.length = 7 :=
  (C6_weekly_context emptyStore ⟨0, 0, 1, 0⟩ (by decide) (by decide) (by decide)).2.1

/-! ## Claim C7: monthly-reflection context -/
/-- C7. For every store and every target date that is a first day of a month
but not of a year (so `month ≠ 0`), the aggregator reads the entries at the
week-start dates (weeks 0..3, day 0) of month `month - 1` of the same
`year_cycle`; each found entry becomes one fragment and missing entries are
skipped.  (The source's `month = 0 → month 12, year_cycle - 1` carry is
unreachable in this branch, since `month = 0` together with
first-day-of-month is first-day-of-year and is handled earlier.) -/
theorem C7_monthly_context (s : Store) (d : CycleDate)
    (hweek : d.week = 0) (hday : d.day = 0) (hmonth : d.month ≠ 0) :
    get_context_for_prompt s d =
      (List.range 4).filterMap (fun week =>
        (s.entry ⟨d.year_cycle, d.month - 1, week, 0⟩).map (fun c =>
          "Week " ++ toString week ++ " reflection: " ++ c)) := by
  unfold get_context_for_prompt
  rw [if_neg (by simp [is_first_day_of_year, hmonth]),
    if_pos (by simp [is_first_day_of_month, hweek, hday])]
  refine List.filterMap_congr ?_
  intro week _
  dsimp only
  rw [if_pos (by omega)]

/-- Witness for C7: a first-day-of-month target with `month = 5` draws from
weeks 0..3 of `month = 4` of the same `year_cycle`. -/
theorem C7_monthly_context_witness :
    get_context_for_prompt emptyStore ⟨2, 5, 0, 0⟩ =
      (List.range 4).filterMap (fun week =>
        (emptyStore.entry ⟨2, 4, week, 0⟩).map (fun c =>
          "Week " ++ toString week ++ " reflection: " ++ c)) :=
  C7_monthly_context emptyStore ⟨2, 5, 0, 0⟩ (by decide) (by decide) (by decide)

theorem leapInd_cases (y : Int) : leapInd y = 0 ∨ leapInd y = 1 := by
  unfold leapInd
  split_ifs <;> simp

theorem isLeapYear_iff (y : Int) :
    isLeapYear y = true ↔ ((y % 4 = 0 ∧ y % 100 ≠ 0) ∨ y % 400 = 0) := by
  unfold isLeapYear
  simp [beq_iff_eq, bne_iff_ne]

theorem leapCount_succ (y : Int) : leapCount (y + 1) = leapCount y + leapInd y := by
  have hsimp : y + 1 - 1 = y := by ring
  unfold leapCount leapInd
  rw [hsimp]
  split_ifs with hL
  · rw [isLeapYear_iff] at hL
    omega
  · rw [isLeapYear_iff] at hL
    push_neg at hL
    omega

theorem dayOfYear_pos {d : RealDate} (h : d.Valid) : 1 ≤ dayOfYear d := by
  obtain ⟨h1, h2, h3, h4⟩ := h
  unfold dayOfYear
  omega

theorem dayOfYear_le {d : RealDate} (h : d.Valid) :
    (dayOfYear d : Int) ≤ 365 + leapInd d.year := by
  obtain ⟨y, m, dy⟩ := d
  obtain ⟨h1, h2, h3, h4⟩ := h
  dsimp only at h1 h2 h3 h4
  unfold dayOfYear cumDaysBefore leapInd
  dsimp only
  interval_cases m <;>
    simp only [daysInMonth] at h4 <;>
    split_ifs at * <;> push_cast <;> omega

theorem yearGap_aux (y1 : Int) (k : Nat) :
    365 * y1 + leapCount y1 + 365 + leapInd y1 <
      365 * (y1 + 1 + k) + leapCount (y1 + 1 + k) + 1 := by
  induction k with
  | zero =>
    have hs := leapCount_succ y1
    have e : y1 + 1 + ((0 : Nat) : Int) = y1 + 1 := by push_cast; ring
    rw [e]
    rcases leapInd_cases y1 with h1 | h1 <;> rw [h1] at hs ⊢ <;> omega
  | succ n ih =>
    have e : y1 + 1 + ((n + 1 : Nat) : Int) = (y1 + 1 + (n : Nat)) + 1 := by
      push_cast
      ring
    rw [e]
    have hs := leapCount_succ (y1 + 1 + (n : Nat))
    rcases leapInd_cases (y1 + 1 + (n : Nat)) with h2 | h2 <;> rw [h2] at hs <;> omega

theorem yearGap (y1 y2 : Int) (h : y1 + 1 ≤ y2) :
    365 * y1 + leapCount y1 + 365 + leapInd y1 < 365 * y2 + leapCount y2 + 1 := by
  have hk : ((y2 - y1 - 1).toNat : Int) = y2 - y1 - 1 := Int.toNat_of_nonneg (by omega)
  have haux := yearGap_aux y1 (y2 - y1 - 1).toNat
  have e : y1 + 1 + ((y2 - y1 - 1).toNat : Int) = y2 := by omega
  rw [e] at haux
  exact haux

/-- Strict monotonicity of `dayNumber` across years: any valid date of an
earlier year has a strictly smaller day number. -/
theorem dayNumber_lt_of_year_lt {a b : RealDate} (ha : a.Valid) (hb : b.Valid)
    (hy : a.year < b.year) : dayNumber a < dayNumber b := by
  have hgap := yearGap a.year b.year (by omega)
  have hub := dayOfYear_le ha
  have hlb := dayOfYear_pos hb
  have hlb2 : (1 : Int) ≤ (dayOfYear b : Int) := by exact_mod_cast hlb
  unfold dayNumber
  rcases leapInd_cases a.year with h1 | h1 <;> rw [h1] at hgap hub <;> omega

theorem from_ymd_opt_some {y : Int} {m d : Nat} {r : RealDate}
    (h : from_ymd_opt y m d = some r) : r.Valid ∧ r.year = y := by
  unfold from_ymd_opt at h
  split_ifs at h with hc
  injection h with h
  subst h
  exact ⟨hc, rfl⟩

theorem recurringNextYear_nonneg {month day : Nat} {today : RealDate} {du : Int}
    (hv : today.Valid)
    (h : recurringNextYear today.year month day today = some du) : 0 ≤ du := by
  unfold recurringNextYear at h
  revert h
  cases hnext : from_ymd_opt (today.year + 1) month day with
  | none =>
    intro h
    exact absurd h (by simp)
  | some next_year_date =>
    intro h
    injection h with h
    obtain ⟨hvn, hyn⟩ := from_ymd_opt_some hnext
    have hlt := dayNumber_lt_of_year_lt hv hvn (by omega)
    omega

theorem days_until_holiday_nonneg {h : Holiday} {today : RealDate} {du : Int}
    (hv : today.Valid) (hdu : days_until_holiday h today = some du) : 0 ≤ du := by
  unfold days_until_holiday at hdu
  dsimp only at hdu
  split_ifs at hdu with h5 h10
  · revert hdu
    cases hsp : h.date.splitOn '-' with
    | nil => intro hdu; simp at hdu
    | cons p0 rest =>
      cases rest with
      | nil => intro hdu; simp at hdu
      | cons p1 rest2 =>
        cases rest2 with
        | cons q qs => intro hdu; simp at hdu
        | nil =>
          intro hdu
          dsimp only at hdu
          cases hp0 : parseU32 p0 with
          | none => simp [hp0] at hdu
          | some month =>
            cases hp1 : parseU32 p1 with
            | none => simp [hp0, hp1] at hdu
            | some day =>
              rw [hp0, hp1] at hdu
              dsimp only at hdu
              revert hdu
              cases hty : from_ymd_opt today.year month day with
              | some this_year_date =>
                intro hdu
                dsimp only at hdu
                split_ifs at hdu with hpos
                · injection hdu with hdu
                  omega
                · exact recurringNextYear_nonneg hv hdu
              | none =>
                intro hdu
                dsimp only at hdu
                exact recurringNextYear_nonneg hv hdu
  · revert hdu
    cases hpd : parseYmdDashed h.date with
    | none => intro hdu; simp at hdu
    | some t =>
      obtain ⟨y, m, d⟩ := t
      intro hdu
      dsimp only at hdu
      cases hsd : from_ymd_opt y m d with
      | none =>
        rw [hsd] at hdu
        simp at hdu
      | some specific_date =>
        rw [hsd] at hdu
        dsimp only at hdu
        split_ifs at hdu with hpos
        injection hdu with hdu
        omega

/-! ## Claim C8: upcoming-holiday selection and ordering -/
/-- C8. For every holiday list and every valid value of "today",
`get_upcoming_holidays` includes a holiday exactly when its `days_until`
value exists and is at most 30 (so a holiday exactly 30 days out is included
and one 31 days out is excluded); the returned list is sorted ascending by
the `days_until` key; and every produced `days_until` value is non-negative
(recomputed for next year when this year's occurrence has passed). -/
theorem C8_upcoming_holidays (holidays : List Holiday) (today : RealDate)
    (hv : today.Valid) :
    (∀ h, h ∈ get_upcoming_holidays holidays today ↔
      h ∈ holidays ∧ ∃ du, days_until_holiday h today = some du ∧ du ≤ 30) ∧
    List.Pairwise (fun a b => holidayKey today a ≤ holidayKey today b)
      (get_upcoming_holidays holidays today) ∧
    (∀ h du, days_until_holiday h today = some du → 0 ≤ du) := by
  refine ⟨?_, ?_, fun h du hdu => days_until_holiday_nonneg hv hdu⟩
  · intro h
    unfold get_upcoming_holidays
    rw [(List.mergeSort_perm _ _).mem_iff, List.mem_filter]
    constructor
    · rintro ⟨hmem, hp⟩
      refine ⟨hmem, ?_⟩
      cases hdu : days_until_holiday h today with
      | none =>
        rw [hdu] at hp
        exact absurd hp (by simp)
      | some du =>
        rw [hdu] at hp
        simp only [decide_eq_true_eq] at hp
        exact ⟨du, rfl, hp⟩
    · rintro ⟨hmem, du, hdu, hle⟩
      refine ⟨hmem, ?_⟩
      rw [hdu]
      simpa using hle
  · unfold get_upcoming_holidays
    have htrans : ∀ a b c : Holiday, holidayLe today a b → holidayLe today b c →
        holidayLe today a c := by
      intro a b c hab hbc
      unfold holidayLe at hab hbc ⊢
      simp only [decide_eq_true_eq] at hab hbc ⊢
      exact le_trans hab hbc
    have htotal : ∀ a b : Holiday, holidayLe today a b || holidayLe today b a := by
      intro a b
      unfold holidayLe
      rcases le_total (holidayKey today a) (holidayKey today b) with hle2 | hle2 <;>
        simp [hle2]
    have hs := List.sorted_mergeSort htrans htotal
      (holidays.filter (fun holiday =>
        match days_until_holiday holiday today with
        | some days_until => decide (days_until ≤ 30)
        | none => false))
    refine hs.imp ?_
    intro a b hab
    unfold holidayLe at hab
    simpa using hab

/-- Witness for C8: today = 2024-01-01; a holiday 30 days out (`"01-31"`) is
included, one 31 days out (`"02-01"`) is excluded. -/
theorem C8_upcoming_holidays_witness :
    (∀ h, h ∈ get_upcoming_holidays
        [⟨"thirty", ['0', '1', '-', '3', '1'], "c", none, true⟩,
         ⟨"thirtyone", ['0', '2', '-', '0', '1'], "c", none, true⟩] ⟨2024, 1, 1⟩ ↔
      h ∈ [⟨"thirty", ['0', '1', '-', '3', '1'], "c", none, true⟩,
         ⟨"thirtyone", ['0', '2', '-', '0', '1'], "c", none, true⟩] ∧
      ∃ du, days_until_holiday h ⟨2024, 1, 1⟩ = some du ∧ du ≤ 30) ∧
    List.Pairwise (fun a b => holidayKey ⟨2024, 1, 1⟩ a ≤ holidayKey ⟨2024, 1, 1⟩ b)
      (get_upcoming_holidays
        [⟨"thirty", ['0', '1', '-', '3', '1'], "c", none, true⟩,
         ⟨"thirtyone", ['0', '2', '-', '0', '1'], "c", none, true⟩] ⟨2024, 1, 1⟩) ∧
    (∀ h du, days_until_holiday h ⟨2024, 1, 1⟩ = some du → 0 ≤ du) :=
  C8_upcoming_holidays _ ⟨2024, 1, 1⟩ (by decide)

/-! ## Claim C9: `get_current_status` with the status absent -/
/-- Counterexample to C9 as stated: with the rolling status absent,
`get_current_status` returns the absent value `none` — not a present
sentinel default text. -/
theorem C9_counterexample_status_absent :
    get_current_status ⟨none, none, none, []⟩ = none ∧
    (get_current_status ⟨none, none, none, []⟩).isSome = false :=
  ⟨rfl, rfl⟩

/-- C9 (amended). `get_current_status` returns the stored rolling status
unchanged: an absent value when the status is absent (no sentinel default is
substituted at this call), and the stored text when present. -/
theorem C9_status_passthrough (p : PersonalizationState) :
    (p.status = none → get_current_status p = none) ∧
    (∀ t, p.status = some t → get_current_status p = some t) :=
  ⟨fun h => h, fun _ h => h⟩

/-- Witness for C9 (amended) at a concrete state with the status absent. -/
theorem C9_status_passthrough_witness :
    get_current_status ⟨some "p", some "s", none, []⟩ = none :=
  (C9_status_passthrough ⟨some "p", some "s", none, []⟩).1 rfl

theorem count_existing_eval (s : Store) (d : CycleDate) :
    count_existing_prompts s d =
      (if s.prompt d 1 then 1 else 0) + (if s.prompt d 2 then 1 else 0) +
      (if s.prompt d 3 then 1 else 0) := by
  have hr : List.range' 1 3 = [1, 2, 3] := rfl
  unfold count_existing_prompts
  rw [hr]
  simp only [List.foldl_cons, List.foldl_nil]
  unfold loadPrompt
  cases h1 : s.prompt d 1 <;> cases h2 : s.prompt d 2 <;> cases h3 : s.prompt d 3 <;>
    simp [h1, h2, h3]

/-! ## Claim C10: the scheduler's prompt count inspects indices 1..3 only -/
/-- C10. `count_existing_prompts` never returns more than 3, and its value
depends only on the presence of prompt indices 1 through 3: two stores that
agree there give the same count, so artifacts at index 4 or higher are never
counted as existing by the scheduled generation pass. -/
theorem C10_count_window :
    (∀ s d, count_existing_prompts s d ≤ 3) ∧
    (∀ s s2 d, (∀ i, 1 ≤ i → i ≤ 3 → s2.prompt d i = s.prompt d i) →
      count_existing_prompts s2 d = count_existing_prompts s d) := by
  constructor
  · intro s d
    rw [count_existing_eval]
    split_ifs <;> omega
  · intro s s2 d hagree
    rw [count_existing_eval, count_existing_eval,
      hagree 1 (by omega) (by omega), hagree 2 (by omega) (by omega),
      hagree 3 (by omega) (by omega)]

/-- Witness for C10: a store whose only prompt artifact has index 4 counts
the same as the empty store — the index-4 artifact is invisible to the
count. -/
theorem C10_count_window_witness :
    count_existing_prompts emptyStore ⟨1, 5, 2, 3⟩ =
      count_existing_prompts storeIndex4 ⟨1, 5, 2, 3⟩ :=
  C10_count_window.2 storeIndex4 emptyStore ⟨1, 5, 2, 3⟩
    (by intro i h1 h3; interval_cases i <;> rfl)

/-- Counterexample to C1 as stated: the scheduled pass
(`generate_prompts_unified` with `skip_checks = false`, no override, max 3)
over a store where prompt `({1,5,2,3}, 3)` already exists but indices 1 and 2
do not, performs a backend call and a store write for `({1,5,2,3}, 3)` —
its count-based check (count = 1 < 3) regenerates numbers 2 and 3 instead of
treating the existing index 3 as success with no backend call and no write. -/
theorem C1_counterexample_noncontiguous :
    storePrompt3.prompt ⟨1, 5, 2, 3⟩ 3 = true ∧
    (generate_prompts_unified (fun _ => false) 3 ⟨1, 5, 2, 3⟩ false none
        ⟨storePrompt3, []⟩).2.events.count (Event.backendPrompt ⟨1, 5, 2, 3⟩ 3) = 1 ∧
    (generate_prompts_unified (fun _ => false) 3 ⟨1, 5, 2, 3⟩ false none
        ⟨storePrompt3, []⟩).2.events.count (Event.writePrompt ⟨1, 5, 2, 3⟩ 3) = 1 :=
  ⟨by decide, by decide, by decide⟩

theorem count_append_one_ne {l : List Event} {a b : Event} (h : b ≠ a) :
    (l ++ [b]).count a = l.count a := by
  rw [List.count_append]
  have hz : [b].count a = 0 := by
    rw [List.count_eq_zero]
    intro hmem
    rw [List.mem_singleton] at hmem
    exact h hmem.symm
  omega

theorem llmGeneratePrompt_pos (d : CycleDate) (n : Nat) (g : GenState) (h : n ≠ 0) :
    llmGeneratePrompt d n g =
      (.ok (), { g with events := g.events ++ [.backendPrompt d n] }) := by
  unfold llmGeneratePrompt
  rw [if_neg h]

theorem savePrompt_pos (d : CycleDate) (n : Nat) (g : GenState) (h : n ≠ 0) :
    savePrompt d n g =
      (.ok (),
        { store :=
            { g.store with
              prompt := fun d2 n2 => if d2 = d ∧ n2 = n then true else g.store.prompt d2 n2 },
          events := g.events ++ [.writePrompt d n] }) := by
  unfold savePrompt
  rw [if_neg h]

theorem processSummaryDate_frame (oracle : CycleDate → Bool) (g : GenState) (cd : CycleDate) :
    (processSummaryDate oracle g cd).store.prompt = g.store.prompt ∧
    (∀ d n, (processSummaryDate oracle g cd).events.count (.backendPrompt d n) =
      g.events.count (.backendPrompt d n)) ∧
    (∀ d n, (processSummaryDate oracle g cd).events.count (.writePrompt d n) =
      g.events.count (.writePrompt d n)) := by
  unfold processSummaryDate
  cases g.store.entry cd with
  | none => exact ⟨rfl, fun _ _ => rfl, fun _ _ => rfl⟩
  | some t =>
    dsimp only
    split_ifs <;>
      refine ⟨rfl, fun d n => ?_, fun d n => ?_⟩ <;>
      simp only [List.append_assoc] <;>
      rw [List.count_append] <;>
      simp [List.count_cons, List.count_nil]

theorem foldl_process_frame (oracle : CycleDate → Bool) (l : List CycleDate) :
    ∀ g : GenState,
    ((l.foldl (processSummaryDate oracle) g).store.prompt = g.store.prompt) ∧
    (∀ d n, (l.foldl (processSummaryDate oracle) g).events.count (.backendPrompt d n) =
      g.events.count (.backendPrompt d n)) ∧
    (∀ d n, (l.foldl (processSummaryDate oracle) g).events.count (.writePrompt d n) =
      g.events.count (.writePrompt d n)) := by
  induction l with
  | nil => exact fun g => ⟨rfl, fun _ _ => rfl, fun _ _ => rfl⟩
  | cons c cs ih =>
    intro g
    have hstep := processSummaryDate_frame oracle g c
    have hrest := ih (processSummaryDate oracle g c)
    simp only [List.foldl_cons]
    exact ⟨hrest.1.trans hstep.1,
      fun d n => (hrest.2.1 d n).trans (hstep.2.1 d n),
      fun d n => (hrest.2.2 d n).trans (hstep.2.2 d n)⟩

theorem generate_missing_summaries_frame (oracle : CycleDate → Bool) (g : GenState) :
    ((generate_missing_summaries oracle g).store.prompt = g.store.prompt) ∧
    (∀ d n, (generate_missing_summaries oracle g).events.count (.backendPrompt d n) =
      g.events.count (.backendPrompt d n)) ∧
    (∀ d n, (generate_missing_summaries oracle g).events.count (.writePrompt d n) =
      g.events.count (.writePrompt d n)) := by
  unfold generate_missing_summaries
  exact foldl_process_frame oracle _ g

theorem unifiedRun_ok (oracle : CycleDate → Bool) (d : CycleDate) (skip : Bool) :
    ∀ (numbers : List Nat) (g : GenState), (∀ m ∈ numbers, 1 ≤ m) →
    (unifiedRun oracle d skip numbers g).1 = .ok () := by
  intro numbers
  induction numbers with
  | nil => intro g _; rfl
  | cons n rest ih =>
    intro g hn
    have hn0 : n ≠ 0 := by
      have := hn n (List.mem_cons_self n rest)
      omega
    unfold unifiedRun
    dsimp only
    rw [llmGeneratePrompt_pos d n _ hn0]
    dsimp only
    rw [savePrompt_pos d n _ hn0]
    exact ih _ (fun m hm => hn m (List.mem_cons_of_mem n hm))

theorem unifiedRun_prompt (oracle : CycleDate → Bool) (d : CycleDate) (skip : Bool) :
    ∀ (numbers : List Nat) (g : GenState), (∀ m ∈ numbers, 1 ≤ m) → ∀ d2 n2,
    (unifiedRun oracle d skip numbers g).2.store.prompt d2 n2 =
      if d2 = d ∧ n2 ∈ numbers then true else g.store.prompt d2 n2 := by
  intro numbers
  induction numbers with
  | nil =>
    intro g _ d2 n2
    simp [unifiedRun]
  | cons n rest ih =>
    intro g hn d2 n2
    have hn0 : n ≠ 0 := by
      have := hn n (List.mem_cons_self n rest)
      omega
    unfold unifiedRun
    dsimp only
    rw [llmGeneratePrompt_pos d n _ hn0]
    dsimp only
    rw [savePrompt_pos d n _ hn0]
    dsimp only
    rw [ih _ (fun m hm => hn m (List.mem_cons_of_mem n hm)) d2 n2]
    by_cases hc : (skip || decide (n > 1)) = true
    · rw [if_pos hc]
      by_cases hd : d2 = d <;> by_cases h1 : n2 ∈ rest <;> by_cases h2 : n2 = n <;>
        simp [List.mem_cons, hd, h1, h2]
    · rw [if_neg hc, (generate_missing_summaries_frame oracle g).1]
      by_cases hd : d2 = d <;> by_cases h1 : n2 ∈ rest <;> by_cases h2 : n2 = n <;>
        simp [List.mem_cons, hd, h1, h2]

theorem unifiedRun_count (oracle : CycleDate → Bool) (d : CycleDate) (skip : Bool) :
    ∀ (numbers : List Nat) (g : GenState), (∀ m ∈ numbers, 1 ≤ m) → ∀ n2,
    ((unifiedRun oracle d skip numbers g).2.events.count (.backendPrompt d n2) =
      g.events.count (.backendPrompt d n2) + numbers.count n2) ∧
    ((unifiedRun oracle d skip numbers g).2.events.count (.writePrompt d n2) =
      g.events.count (.writePrompt d n2) + numbers.count n2) := by
  intro numbers
  induction numbers with
  | nil =>
    intro g _ n2
    simp [unifiedRun]
  | cons n rest ih =>
    intro g hn n2
    have hn0 : n ≠ 0 := by
      have := hn n (List.mem_cons_self n rest)
      omega
    unfold unifiedRun
    dsimp only
    rw [llmGeneratePrompt_pos d n _ hn0]
    dsimp only
    rw [savePrompt_pos d n _ hn0]
    dsimp only
    have hg0bp : (if (skip || decide (n > 1)) = true then g
        else generate_missing_summaries oracle g).events.count (Event.backendPrompt d n2) =
        g.events.count (Event.backendPrompt d n2) := by
      split_ifs with h
      · rfl
      · exact (generate_missing_summaries_frame oracle g).2.1 d n2
    have hg0wp : (if (skip || decide (n > 1)) = true then g
        else generate_missing_summaries oracle g).events.count (Event.writePrompt d n2) =
        g.events.count (Event.writePrompt d n2) := by
      split_ifs with h
      · rfl
      · exact (generate_missing_summaries_frame oracle g).2.2 d n2
    constructor
    · rw [(ih _ (fun m hm => hn m (List.mem_cons_of_mem n hm)) n2).1,
        List.count_append, List.count_append, hg0bp]
      by_cases hnn : n2 = n <;>
        simp [List.count_cons, List.count_nil, hnn] <;> omega
    · rw [(ih _ (fun m hm => hn m (List.mem_cons_of_mem n hm)) n2).2,
        List.count_append, List.count_append, hg0wp]
      by_cases hnn : n2 = n <;>
        simp [List.count_cons, List.count_nil, hnn] <;> omega

theorem processSummaryDate_summary_keep (oracle : CycleDate → Bool) (g : GenState)
    (cd date : CycleDate) (h : (g.store.summary date).isSome = true) :
    ((processSummaryDate oracle g cd).store.summary date).isSome = true ∧
    (processSummaryDate oracle g cd).events.count (.writeSummary date) =
      g.events.count (.writeSummary date) := by
  unfold processSummaryDate
  cases hent : g.store.entry cd with
  | none => exact ⟨h, rfl⟩
  | some t =>
    dsimp only
    by_cases hcd : cd = date
    · subst hcd
      obtain ⟨v, hv⟩ := Option.isSome_iff_exists.mp h
      cases hsf : g.store.statusFile cd <;> cases hor : oracle cd <;>
        simp [hv, hsf, hor, List.count_append, List.count_cons, List.count_nil]
    · have hcd2 : ¬ date = cd := fun hh => hcd hh.symm
      cases hsn : (g.store.summary cd).isNone <;> cases hsf : g.store.statusFile cd <;>
        cases hor : oracle cd <;>
        simp [hsn, hsf, hor, List.count_append, List.count_cons, List.count_nil, h, hcd,
          hcd2]

theorem processSummaryDate_status_keep (oracle : CycleDate → Bool) (g : GenState)
    (cd date : CycleDate) (h : g.store.statusFile date = true) :
    (processSummaryDate oracle g cd).store.statusFile date = true ∧
    (processSummaryDate oracle g cd).events.count (.writeStatus date) =
      g.events.count (.writeStatus date) := by
  unfold processSummaryDate
  cases hent : g.store.entry cd with
  | none => exact ⟨h, rfl⟩
  | some t =>
    dsimp only
    by_cases hcd : cd = date
    · subst hcd
      cases hsn : (g.store.summary cd).isNone <;>
        simp [h, hsn, List.count_append, List.count_cons, List.count_nil]
    · have hcd2 : ¬ date = cd := fun hh => hcd hh.symm
      cases hsn : (g.store.summary cd).isNone <;> cases hsf : g.store.statusFile cd <;>
        cases hor : oracle cd <;>
        simp [hsn, hsf, hor, List.count_append, List.count_cons, List.count_nil, h, hcd,
          hcd2]

theorem foldl_summary_keep (oracle : CycleDate → Bool) (date : CycleDate)
    (l : List CycleDate) : ∀ g : GenState, (g.store.summary date).isSome = true →
    ((l.foldl (processSummaryDate oracle) g).store.summary date).isSome = true ∧
    (l.foldl (processSummaryDate oracle) g).events.count (.writeSummary date) =
      g.events.count (.writeSummary date) := by
  induction l with
  | nil => exact fun g h => ⟨h, rfl⟩
  | cons c cs ih =>
    intro g h
    have hstep := processSummaryDate_summary_keep oracle g c date h
    have hrest := ih (processSummaryDate oracle g c) hstep.1
    simp only [List.foldl_cons]
    exact ⟨hrest.1, hrest.2.trans hstep.2⟩

theorem foldl_status_keep (oracle : CycleDate → Bool) (date : CycleDate)
    (l : List CycleDate) : ∀ g : GenState, g.store.statusFile date = true →
    ((l.foldl (processSummaryDate oracle) g).store.statusFile date = true) ∧
    (l.foldl (processSummaryDate oracle) g).events.count (.writeStatus date) =
      g.events.count (.writeStatus date) := by
  induction l with
  | nil => exact fun g h => ⟨h, rfl⟩
  | cons c cs ih =>
    intro g h
    have hstep := processSummaryDate_status_keep oracle g c date h
    have hrest := ih (processSummaryDate oracle g c) hstep.1
    simp only [List.foldl_cons]
    exact ⟨hrest.1, hrest.2.trans hstep.2⟩

theorem scheduled_two_pass (oracle : CycleDate → Bool) (d : CycleDate) (s : Store)
    (maxP : Nat) (h1 : 1 ≤ maxP) (h3 : maxP ≤ 3)
    (hfresh : ∀ i, s.prompt d i = false) :
    (generate_prompts_unified oracle maxP d false none ⟨s, []⟩).1 = .ok () ∧
    (generate_prompts_unified oracle maxP d false none
      (generate_prompts_unified oracle maxP d false none ⟨s, []⟩).2) =
      (.ok (), (generate_prompts_unified oracle maxP d false none ⟨s, []⟩).2) ∧
    (∀ n, 1 ≤ n → n ≤ maxP →
      (generate_prompts_unified oracle maxP d false none ⟨s, []⟩).2.events.count
        (Event.backendPrompt d n) = 1 ∧
      (generate_prompts_unified oracle maxP d false none ⟨s, []⟩).2.events.count
        (Event.writePrompt d n) = 1) := by
  have hc0 : count_existing_prompts s d = 0 := by
    rw [count_existing_eval, hfresh 1, hfresh 2, hfresh 3]
    simp
  have hnum : ∀ m ∈ List.range' 1 maxP, 1 ≤ m := by
    intro m hm
    rw [List.mem_range'_1] at hm
    omega
  have hunf : generate_prompts_unified oracle maxP d false none ⟨s, []⟩ =
      unifiedRun oracle d false (List.range' 1 maxP) ⟨s, []⟩ := by
    unfold generate_prompts_unified
    dsimp only [Option.getD_none]
    rw [hc0, if_neg (by omega)]
    simp only [Nat.zero_add, Nat.sub_zero]
  have hcount1 : count_existing_prompts
      (unifiedRun oracle d false (List.range' 1 maxP) ⟨s, []⟩).2.store d = maxP := by
    rw [count_existing_eval,
      unifiedRun_prompt oracle d false _ _ hnum d 1,
      unifiedRun_prompt oracle d false _ _ hnum d 2,
      unifiedRun_prompt oracle d false _ _ hnum d 3]
    dsimp only
    rw [hfresh 1, hfresh 2, hfresh 3]
    simp only [List.mem_range'_1, eq_self_iff_true, true_and]
    split_ifs <;> first | omega | simp_all
  refine ⟨?_, ?_, ?_⟩
  · rw [hunf]
    exact unifiedRun_ok oracle d false _ _ hnum
  · rw [hunf]
    unfold generate_prompts_unified
    dsimp only [Option.getD_none]
    rw [hcount1, if_pos (by omega)]
  · intro n hn1 hn2
    rw [hunf]
    have hcnt := unifiedRun_count oracle d false (List.range' 1 maxP) ⟨s, []⟩ hnum n
    dsimp only at hcnt
    rw [hcnt.1, hcnt.2]
    have hone : (List.range' 1 maxP).count n = 1 := by
      interval_cases maxP <;> interval_cases n <;> decide
    simp [hone]

/-- C1 (amended).  Idempotency as the source implements it: the on-demand
path checks existence per `(date, number)` — an existing artifact (with
`1 ≤ number ≤ max`) is success with no backend call and no write, and two
sequential on-demand calls for an absent artifact perform exactly one
backend call and one store write for that key.  The scheduled pass's check
is count-based over prompt indices 1..3: it is a no-op exactly when the
count reaches `max_prompts`; starting from a date with no prompts and
`max_prompts ≤ 3`, two sequential scheduled passes perform exactly one
backend call and one write per prompt number.  The summary/status catch-up
checks existence independently per artifact: an existing summary is never
rewritten, an existing status file is never rewritten. -/
theorem C1_idempotent_generation :
    (∀ maxP d n g, 1 ≤ n → n ≤ maxP → g.store.prompt d n = true →
      generate_prompt_on_demand maxP d n g = (.ok (), g)) ∧
    (∀ maxP d n s, 1 ≤ n → n ≤ maxP → s.prompt d n = false →
      (generate_prompt_on_demand maxP d n (⟨s, []⟩ : GenState)).1 = .ok () ∧
      (generate_prompt_on_demand maxP d n
        (generate_prompt_on_demand maxP d n (⟨s, []⟩ : GenState)).2).1 = .ok () ∧
      (generate_prompt_on_demand maxP d n
        (generate_prompt_on_demand maxP d n (⟨s, []⟩ : GenState)).2).2.events =
        [Event.backendPrompt d n, Event.writePrompt d n]) ∧
    (∀ oracle defMax d skip maxOv g,
      count_existing_prompts g.store d ≥ maxOv.getD defMax →
      generate_prompts_unified oracle defMax d skip maxOv g = (.ok (), g)) ∧
    (∀ oracle maxP d s, 1 ≤ maxP → maxP ≤ 3 → (∀ i, s.prompt d i = false) →
      ∀ n, 1 ≤ n → n ≤ maxP →
      (generate_prompts_unified oracle maxP d false none
        (generate_prompts_unified oracle maxP d false none
          (⟨s, []⟩ : GenState)).2).2.events.count (Event.backendPrompt d n) = 1 ∧
      (generate_prompts_unified oracle maxP d false none
        (generate_prompts_unified oracle maxP d false none
          (⟨s, []⟩ : GenState)).2).2.events.count (Event.writePrompt d n) = 1) ∧
    (∀ oracle g date, (g.store.summary date).isSome = true →
      (generate_missing_summaries oracle g).events.count (Event.writeSummary date) =
        g.events.count (Event.writeSummary date)) ∧
    (∀ oracle g date, g.store.statusFile date = true →
      (generate_missing_summaries oracle g).events.count (Event.writeStatus date) =
        g.events.count (Event.writeStatus date)) := by
  refine ⟨?_, ?_, ?_, ?_, ?_, ?_⟩
  · intro maxP d n g h1 hle hex
    unfold generate_prompt_on_demand
    rw [if_neg (by omega)]
    have hl : loadPrompt g.store d n = .ok (some ()) := by
      unfold loadPrompt
      rw [if_neg (by omega), hex]
      rfl
    rw [hl]
  · intro maxP d n s h1 hle hex
    have hr1 : generate_prompt_on_demand maxP d n (⟨s, []⟩ : GenState) =
        (.ok (),
          ⟨{ s with prompt := fun d2 n2 => if d2 = d ∧ n2 = n then true else s.prompt d2 n2 },
           [Event.backendPrompt d n, Event.writePrompt d n]⟩) := by
      unfold generate_prompt_on_demand
      rw [if_neg (by omega)]
      dsimp only
      have hl : loadPrompt s d n = .ok none := by
        unfold loadPrompt
        rw [if_neg (by omega), hex]
        rfl
      rw [hl]
      dsimp only
      rw [llmGeneratePrompt_pos d n _ (by omega)]
      dsimp only
      rw [savePrompt_pos d n _ (by omega)]
      rfl
    have hl2 : loadPrompt
        { s with prompt := fun d2 n2 => if d2 = d ∧ n2 = n then true else s.prompt d2 n2 }
        d n = .ok (some ()) := by
      unfold loadPrompt
      rw [if_neg (by omega)]
      simp
    have hr2 : generate_prompt_on_demand maxP d n
        (⟨{ s with prompt := fun d2 n2 => if d2 = d ∧ n2 = n then true else s.prompt d2 n2 },
          [Event.backendPrompt d n, Event.writePrompt d n]⟩ : GenState) =
        (.ok (),
          ⟨{ s with prompt := fun d2 n2 => if d2 = d ∧ n2 = n then true else s.prompt d2 n2 },
           [Event.backendPrompt d n, Event.writePrompt d n]⟩) := by
      unfold generate_prompt_on_demand
      rw [if_neg (by omega)]
      dsimp only
      rw [hl2]
    refine ⟨by rw [hr1], ?_, ?_⟩
    · rw [hr1]
      dsimp only
      rw [hr2]
    · rw [hr1]
      dsimp only
      rw [hr2]
  · intro oracle defMax d skip maxOv g hge
    unfold generate_prompts_unified
    dsimp only
    rw [if_pos hge]
  · intro oracle maxP d s h1 h3 hfresh n hn1 hn2
    have h2p := scheduled_two_pass oracle d s maxP h1 h3 hfresh
    constructor
    · rw [h2p.2.1]
      exact (h2p.2.2 n hn1 hn2).1
    · rw [h2p.2.1]
      exact (h2p.2.2 n hn1 hn2).2
  · intro oracle g date h
    unfold generate_missing_summaries
    exact (foldl_summary_keep oracle date _ g h).2
  · intro oracle g date h
    unfold generate_missing_summaries
    exact (foldl_status_keep oracle date _ g h).2

/-- Witness for C1 (amended): the on-demand path over the store whose only
prompt is `({1,5,2,3}, 3)` is a no-op for that key. -/
theorem C1_idempotent_generation_witness :
    generate_prompt_on_demand 3 ⟨1, 5, 2, 3⟩ 3 (⟨storePrompt3, []⟩ : GenState) =
      (.ok (), (⟨storePrompt3, []⟩ : GenState)) :=
  C1_idempotent_generation.1 3 ⟨1, 5, 2, 3⟩ 3 (⟨storePrompt3, []⟩ : GenState)
    (by decide) (by decide) (by decide)

end LlmJournal
